import Mathlib

/-!
Verification development for the Digital Starshot core:
shallow embedding of `src/domain/isocenter_detection.py`,
`src/domain/constants.py` and `src/services/video_stream_service.py`.

Modelling conventions:
* Python ints are `Int`/`Nat`; Python floats are exact rationals `ℚ`.
* External library calls (sklearn RANSAC fits, OpenCV blur / Otsu threshold /
  contour extraction / moments, the video capture device) are oracle
  parameters: the embedded functions are quantified over their outputs.
* Fallible code is `Except`; the mutable service object is explicit state
  passing with a step function over an event alphabet.
-/

set_option autoImplicit false

namespace Starshot

/-! ## Constants (`src/domain/constants.py`) -/

/-- `LASER_LINE_ITERATIONS = 10`: number of cross-sections analysed. -/
def LASER_LINE_ITERATIONS : Nat := 10

/-- `LASER_LINE_THRESHOLD = 10`: dark-pixel intensity threshold. -/
def LASER_LINE_THRESHOLD : Nat := 10

/-- `LASER_SLOPE_TOLERANCE = 1 / 100`. -/
def LASER_SLOPE_TOLERANCE : ℚ := 1 / 100

/-- The inline literal `1e-10` guarding the determinant in
`detect_laser_isocenter`. -/
def LASER_DET_EPS : ℚ := 1 / 10 ^ 10

/-- `DR_MOMENT_THRESHOLD = 1e-10`. -/
def DR_MOMENT_THRESHOLD : ℚ := 1 / 10 ^ 10

/-- `LASER_ROI_SIZE = 200`. -/
def LASER_ROI_SIZE : ℤ := 200

/-- `DR_ROI_SIZE = 200`. -/
def DR_ROI_SIZE : ℤ := 200

/-- `DR_MIN_CONTOUR_AREA = 10`. -/
def DR_MIN_CONTOUR_AREA : ℤ := 10

/-- `DR_MAX_CONTOUR_AREA = 500`. -/
def DR_MAX_CONTOUR_AREA : ℤ := 500

/-! ## ROI clipping (shared by both detectors)

`roi_start_y = max(0, int(h / 2) - roi_size)` etc.; `int(h / 2)` on a
non-negative Python int is integer division by 2. -/

/-- Clipped ROI start along one dimension: `max(0, int(d / 2) - roi_size)`. -/
def roiStart (d roi_size : ℤ) : ℤ := max 0 (d / 2 - roi_size)

/-- Clipped ROI end along one dimension: `min(d, int(d / 2) + roi_size)`. -/
def roiEnd (d roi_size : ℤ) : ℤ := min d (d / 2 + roi_size)

/-! ## Laser isocenter: intersection step
(`detect_laser_isocenter`, lines 145-170)

The RANSAC fits are external (sklearn); their outputs
`hor_slope, hor_intercept, ver_slope, ver_intercept` are parameters. -/

/-- Lines 145-168 of `isocenter_detection.py`: given the two fit results and
the ROI origin, compute the returned `(laser_x, laser_y)`. -/
def laserIntersection (rsx rsy : ℤ)
    (hor_slope hor_intercept ver_slope ver_intercept : ℚ) : ℚ × ℚ :=
  if |ver_slope| > LASER_SLOPE_TOLERANCE then
    let ori_ver_slope := -1 / ver_slope
    let ori_ver_intercept := -hor_intercept / ver_slope
    let determinant := -hor_slope + ori_ver_slope
    if |determinant| > LASER_DET_EPS then
      ((rsx : ℚ) + (-ori_ver_intercept + hor_intercept) / determinant,
       (rsy : ℚ) +
         (hor_intercept * ori_ver_slope - ori_ver_intercept * hor_slope) /
           determinant)
    else
      ((rsx : ℚ) + hor_intercept, (rsy : ℚ) + ver_intercept)
  else
    ((rsx : ℚ) + hor_intercept, (rsy : ℚ) + ver_intercept)

/-- `detect_laser_isocenter` final result on an `h × w` image, with the fit
results supplied as oracle parameters: the ROI origin is the clipped start
`(roi_start_x, roi_start_y)`. -/
def detect_laser_isocenter_result (h w roi_size : ℤ)
    (hor_slope hor_intercept ver_slope ver_intercept : ℚ) : ℚ × ℚ :=
  laserIntersection (roiStart w roi_size) (roiStart h roi_size)
    hor_slope hor_intercept ver_slope ver_intercept

/-- **C5.** When the fitted vertical-arm slope magnitude is at most the
tolerance `1/100` — including exactly at the tolerance, which fails the
strict `>` test and is treated as parallel — `detect_laser_isocenter`
returns the two intercepts directly:
`(roi_start_x + hor_intercept, roi_start_y + ver_intercept)`. -/
theorem laser_parallel_branch_uses_intercepts (h w roi_size : ℤ)
    (hor_slope hor_intercept ver_slope ver_intercept : ℚ)
    (hv : |ver_slope| ≤ LASER_SLOPE_TOLERANCE) :
    detect_laser_isocenter_result h w roi_size
        hor_slope hor_intercept ver_slope ver_intercept =
      ((roiStart w roi_size : ℚ) + hor_intercept,
       (roiStart h roi_size : ℚ) + ver_intercept) := by
  unfold detect_laser_isocenter_result laserIntersection
  rw [if_neg (not_lt.mpr hv)]

/-- Witness for C5 at the boundary `ver_slope = 1/100` (treated as
parallel) on a 400 × 600 image with the default ROI half-size 200. -/
theorem laser_parallel_branch_uses_intercepts_witness :
    detect_laser_isocenter_result 400 600 200 (1/2) 5 (1/100) 7 =
      ((100 : ℚ) + 5, (0 : ℚ) + 7) := by
  have hb : |(1/100 : ℚ)| ≤ LASER_SLOPE_TOLERANCE := by
    rw [LASER_SLOPE_TOLERANCE, abs_of_pos (by norm_num)]
  have h := laser_parallel_branch_uses_intercepts 400 600 200 (1/2) 5 (1/100) 7 hb
  rw [h]
  norm_num [roiStart]

/-! ## Laser isocenter: cross-section sampling
(`detect_laser_isocenter`, lines 92-114)

The inverted thresholded ROI is the oracle `thresh : row → col → value`
(output of the external blur / Otsu-threshold / invert chain); `size_v` is
the ROI height `crop_roi.shape[0]`, `size_h` the ROI width. The float index
expression `int((size_v / LASER_LINE_ITERATIONS) * (i + 1))` is modelled by
its exact value `⌊size_v * (i + 1) / 10⌋`. -/

/-- Sample index of cross-section `i`: `int((size_v / 10) * (i + 1))`. -/
def crossIdx (size_v i : Nat) : Nat := size_v * (i + 1) / LASER_LINE_ITERATIONS

/-- `np.where(line < LASER_LINE_THRESHOLD)[0]`: positions along a scanned
line whose pixel value is below the dark-pixel threshold. -/
def darkPixels (line : Nat → Nat) (len : Nat) : List Nat :=
  (List.range len).filter (fun j => decide (line j < LASER_LINE_THRESHOLD))

/-- `np.mean` of a list of positions, as an exact rational. -/
def meanQ (l : List Nat) : ℚ := ((l.foldl (· + ·) 0 : Nat) : ℚ) / (l.length : ℚ)

/-- `pos_vert` entry for cross-section `i`: mean row of the dark pixels of
column `idx`, falling back to `idx` itself when the column has none. -/
def posVertAt (thresh : Nat → Nat → Nat) (size_v i : Nat) : ℚ :=
  let idx := crossIdx size_v i
  let px := darkPixels (fun r => thresh r idx) size_v
  if 0 < px.length then meanQ px else (idx : ℚ)

/-- `pos_horz` entry for cross-section `i`: mean column of the dark pixels
of row `idx`, falling back to `idx` itself when the row has none. -/
def posHorzAt (thresh : Nat → Nat → Nat) (size_v size_h i : Nat) : ℚ :=
  let idx := crossIdx size_v i
  let px := darkPixels (fun c => thresh idx c) size_h
  if 0 < px.length then meanQ px else (idx : ℚ)

/-- The `pos_vert` regression input built by the sampling loop. -/
def posVertList (thresh : Nat → Nat → Nat) (size_v : Nat) : List ℚ :=
  (List.range (LASER_LINE_ITERATIONS - 1)).map (posVertAt thresh size_v)

/-- The `pos_horz` regression input built by the sampling loop. -/
def posHorzList (thresh : Nat → Nat → Nat) (size_v size_h : Nat) : List ℚ :=
  (List.range (LASER_LINE_ITERATIONS - 1)).map (posHorzAt thresh size_v size_h)

/-- The `xy_pos` sample-index vector built by the sampling loop. -/
def xyPosList (size_v : Nat) : List Nat :=
  (List.range (LASER_LINE_ITERATIONS - 1)).map (crossIdx size_v)

/-- **C8.** The sampling loop of `detect_laser_isocenter` analyses exactly
`LASER_LINE_ITERATIONS - 1 = 9` cross-sections, at indices
`int((size_v / 10) * (i + 1))` for `i = 0..8`; whenever a scanned line has
no pixel below the dark-pixel threshold, the crossing coordinate for that
sample is the sample index itself, so both regression input vectors are
total (length 9, defined at every entry) and this step never fails. -/
theorem laser_sampling_nine_sections_fallback
    (thresh : Nat → Nat → Nat) (size_v size_h : Nat) :
    (posVertList thresh size_v).length = 9 ∧
    (posHorzList thresh size_v size_h).length = 9 ∧
    xyPosList size_v = (List.range 9).map (fun i => size_v * (i + 1) / 10) ∧
    (∀ i, i < 9 →
      (∀ r, r < size_v →
        ¬ thresh r (crossIdx size_v i) < LASER_LINE_THRESHOLD) →
      posVertAt thresh size_v i = (crossIdx size_v i : ℚ)) ∧
    (∀ i, i < 9 →
      (∀ c, c < size_h →
        ¬ thresh (crossIdx size_v i) c < LASER_LINE_THRESHOLD) →
      posHorzAt thresh size_v size_h i = (crossIdx size_v i : ℚ)) := by
  refine ⟨?_, ?_, rfl, ?_, ?_⟩
  · simp [posVertList, LASER_LINE_ITERATIONS]
  · simp [posHorzList, LASER_LINE_ITERATIONS]
  · intro i _ hall
    have hnil : darkPixels (fun r => thresh r (crossIdx size_v i)) size_v
        = [] := by
      rw [darkPixels, List.filter_eq_nil_iff]
      intro a ha
      simp only [decide_eq_true_eq]
      exact hall a (List.mem_range.mp ha)
    simp [posVertAt, hnil]
  · intro i _ hall
    have hnil : darkPixels (fun c => thresh (crossIdx size_v i) c) size_h
        = [] := by
      rw [darkPixels, List.filter_eq_nil_iff]
      intro a ha
      simp only [decide_eq_true_eq]
      exact hall a (List.mem_range.mp ha)
    simp [posHorzAt, hnil]

/-- Witness for C8 on a 20 × 20 all-bright (255) thresholded ROI: at sample
`i = 0` the index is `2` and both crossing coordinates fall back to it. -/
theorem laser_sampling_nine_sections_fallback_witness :
    posVertAt (fun _ _ => 255) 20 0 = ((crossIdx 20 0 : Nat) : ℚ) ∧
    posHorzAt (fun _ _ => 255) 20 20 0 = ((crossIdx 20 0 : Nat) : ℚ) :=
  ⟨(laser_sampling_nine_sections_fallback (fun _ _ => 255) 20 20).2.2.2.1 0
      (by norm_num)
      (fun r _ => by rw [LASER_LINE_THRESHOLD]; norm_num),
   (laser_sampling_nine_sections_fallback (fun _ _ => 255) 20 20).2.2.2.2 0
      (by norm_num)
      (fun c _ => by rw [LASER_LINE_THRESHOLD]; norm_num)⟩

/-- **C1 (amended).** In the non-parallel branch (`|ver_slope| > 1/100` and
`|determinant| > 1e-10`), `detect_laser_isocenter` returns the unique
solution of the 2×2 linear system formed by the horizontal-arm fitted line
`Y = hor_slope·X + hor_intercept` and the *derived* line
`Y = (-1/ver_slope)·X + (-hor_intercept/ver_slope)` (built from the vertical
fit's slope and the horizontal fit's intercept), translated to full-image
coordinates by adding the clipped ROI origin. -/
theorem laser_nonparallel_solves_derived_system (h w roi_size : ℤ)
    (hs hi vs vi : ℚ)
    (hv : |vs| > LASER_SLOPE_TOLERANCE)
    (hd : |(-hs) + (-1 / vs)| > LASER_DET_EPS) :
    ∃ X Y : ℚ,
      detect_laser_isocenter_result h w roi_size hs hi vs vi =
        ((roiStart w roi_size : ℚ) + X, (roiStart h roi_size : ℚ) + Y) ∧
      Y = hs * X + hi ∧
      Y = (-1 / vs) * X + (-hi / vs) ∧
      ∀ X' Y' : ℚ, Y' = hs * X' + hi → Y' = (-1 / vs) * X' + (-hi / vs) →
        X' = X ∧ Y' = Y := by
  have hvs : vs ≠ 0 := by
    intro h0
    rw [h0, abs_zero] at hv
    rw [LASER_SLOPE_TOLERANCE] at hv
    norm_num at hv
  have hdet : (-hs + (-1 / vs)) ≠ 0 := by
    intro h0
    rw [h0, abs_zero] at hd
    rw [LASER_DET_EPS] at hd
    norm_num at hd
  have h4 : (-1 : ℚ) - vs * hs ≠ 0 := by
    have h5 : vs * (-hs + -1 / vs) = -1 - vs * hs := by
      field_simp
      ring
    rw [← h5]
    exact mul_ne_zero hvs hdet
  unfold detect_laser_isocenter_result laserIntersection
  rw [if_pos hv]
  dsimp only
  rw [if_pos hd]
  have hA1 : (hi * (-1 / vs) - -hi / vs * hs) / (-hs + -1 / vs) =
      hs * ((-(-hi / vs) + hi) / (-hs + -1 / vs)) + hi := by
    nth_rewrite 2 [← mul_div_assoc]
    rw [div_add' _ _ _ hdet, div_eq_div_iff hdet hdet]
    ring
  have hA2 : (hi * (-1 / vs) - -hi / vs * hs) / (-hs + -1 / vs) =
      (-1 / vs) * ((-(-hi / vs) + hi) / (-hs + -1 / vs)) + (-hi / vs) := by
    nth_rewrite 2 [← mul_div_assoc]
    rw [div_add' _ _ _ hdet, div_eq_div_iff hdet hdet]
    ring
  refine ⟨_, _, rfl, hA1, hA2, ?_⟩
  · intro X' Y' h1 h2
    have h3 : hs * X' + hi = (-1 / vs) * X' + (-hi / vs) := by
      rw [← h1, ← h2]
    have hAeq : hs * ((-(-hi / vs) + hi) / (-hs + -1 / vs)) + hi =
        (-1 / vs) * ((-(-hi / vs) + hi) / (-hs + -1 / vs)) + (-hi / vs) := by
      rw [← hA1, hA2]
    have key : (hs - (-1 / vs)) *
        (X' - (-(-hi / vs) + hi) / (-hs + -1 / vs)) = 0 := by
      linear_combination h3 - hAeq
    have hcoef : hs - (-1 / vs) ≠ 0 := by
      intro h0
      apply hdet
      linear_combination -h0
    have hX : X' = (-(-hi / vs) + hi) / (-hs + -1 / vs) := by
      rcases mul_eq_zero.mp key with hc | hx
      · exact absurd hc hcoef
      · linarith
    refine ⟨hX, ?_⟩
    rw [h1, hX, ← hA1]

/-- Witness for C1 (amended) at the concrete fit results
`hor_slope = 0, hor_intercept = 10, ver_slope = 1, ver_intercept = 20`
on a 400 × 600 image with ROI half-size 200. -/
theorem laser_nonparallel_solves_derived_system_witness :
    ∃ X Y : ℚ,
      detect_laser_isocenter_result 400 600 200 0 10 1 20 =
        ((roiStart 600 200 : ℚ) + X, (roiStart 400 200 : ℚ) + Y) ∧
      Y = 0 * X + 10 ∧
      Y = (-1 / 1) * X + (-10 / 1) ∧
      ∀ X' Y' : ℚ, Y' = 0 * X' + 10 → Y' = (-1 / 1) * X' + (-10 / 1) →
        X' = X ∧ Y' = Y :=
  laser_nonparallel_solves_derived_system 400 600 200 0 10 1 20
    (by rw [LASER_SLOPE_TOLERANCE]; norm_num)
    (by rw [LASER_DET_EPS]; norm_num)

/-- **C1 counterexample.** At the concrete fit results
`hor_slope = 0, hor_intercept = 10, ver_slope = 1, ver_intercept = 20`
(which pass both guards: `|1| > 1/100` and `|determinant| = 1 > 1e-10`),
the returned ROI-relative point is `(-20, 10)`, which does *not* lie on both
fitted regression lines under either orientation convention — so the result
is not the intersection of the horizontal-arm fit and the vertical-arm fit.
(Here the fitted lines are `p = 0·t + 10` for the horizontal fit and
`p = 1·t + 20` for the vertical fit; the ROI origin is `(100, 0)`.) -/
theorem laser_nonparallel_not_fitted_intersection :
    |(1 : ℚ)| > LASER_SLOPE_TOLERANCE ∧
    |(-(0 : ℚ)) + (-1 / 1)| > LASER_DET_EPS ∧
    detect_laser_isocenter_result 400 600 200 0 10 1 20 =
      ((100 : ℚ) + (-20), (0 : ℚ) + 10) ∧
    ¬(((-20 : ℚ) = 0 * 10 + 10 ∧ (10 : ℚ) = 1 * (-20) + 20) ∨
      ((10 : ℚ) = 0 * (-20) + 10 ∧ (-20 : ℚ) = 1 * 10 + 20)) := by
  refine ⟨?_, ?_, ?_, ?_⟩
  · rw [LASER_SLOPE_TOLERANCE]; norm_num
  · rw [LASER_DET_EPS]; norm_num
  · norm_num [detect_laser_isocenter_result, laserIntersection, roiStart,
      LASER_SLOPE_TOLERANCE, LASER_DET_EPS]
  · norm_num

/-! ## DR center detection (`detect_dr_center`, lines 173-267)

The OpenCV chain (blur, Otsu threshold, `findContours`, `contourArea`,
`moments`) is external; the contour list and the per-contour area / moment
functions are oracle parameters over an abstract contour type `α`. -/

/-- The `ValueError`/`TypeError` raised by `detect_dr_center`'s input
validation, by source order. `dimErr`, `emptyErr` and `areaErr` are all
Python `ValueError`s; `typeErr` is a `TypeError`. -/
inductive DrErr where
  | typeErr
  | dimErr
  | emptyErr
  | areaErr
  deriving DecidableEq

/-- The image-processing operations performed on the valid path, in source
order (lines 226-244), recorded so that "fails before any processing" is
expressible. -/
inductive DrStep where
  | roiExtract
  | gaussianBlur
  | otsuThreshold
  | contourSearch
  deriving DecidableEq

/-- The processing operations performed on the valid path. -/
def drProcSteps : List DrStep :=
  [.roiExtract, .gaussianBlur, .otsuThreshold, .contourSearch]

/-- Shape metadata of the `image_array` argument. -/
structure NpImage where
  isNdarray : Bool
  ndim : Nat
  height : Nat
  width : Nat

/-- Python `int()` applied to a float/rational: truncation toward zero. -/
def pyTrunc (q : ℚ) : ℤ := if q < 0 then -(Int.floor (-q)) else Int.floor q

/-- Python `max(xs, key=f)`: the first element attaining the maximal key
(later elements replace the running best only on a strictly greater key). -/
def pyMaxBy {α : Type} (f : α → ℚ) : List α → Option α
  | [] => none
  | x :: xs => some (xs.foldl (fun best c => if f best < f c then c else best) x)

/-- The contour-processing core of `detect_dr_center` (lines 224-267),
after validation: area-filter the contours, pick the largest, and compute
its moment centroid guarded by `DR_MOMENT_THRESHOLD`, defaulting to the ROI
center written as `roi_start + int(dim / 2) - roi_start` in the source. -/
def drCore {α : Type} (area m00 m10 m01 : α → ℚ)
    (h w roi_size min_area max_area : ℤ) (contours : List α) : ℤ × ℤ :=
  let rsy := roiStart h roi_size
  let rsx := roiStart w roi_size
  let filtered := contours.filter
    (fun c => decide ((min_area : ℚ) < area c ∧ area c < (max_area : ℚ)))
  let dr_x := rsx + w / 2 - rsx
  let dr_y := rsy + h / 2 - rsy
  match pyMaxBy area filtered with
  | none => (dr_x, dr_y)
  | some largest =>
    if DR_MOMENT_THRESHOLD < m00 largest then
      (rsx + pyTrunc (m10 largest / m00 largest),
       rsy + pyTrunc (m01 largest / m00 largest))
    else
      (dr_x, dr_y)

/-- `detect_dr_center`: validation (lines 211-222, in source order), then
the processing chain; the second component records which processing
operations ran. -/
def detect_dr_center {α : Type} (area m00 m10 m01 : α → ℚ)
    (img : NpImage) (roi_size min_area max_area : ℤ)
    (contours : List α) : Except DrErr (ℤ × ℤ) × List DrStep :=
  if img.isNdarray = false then (.error .typeErr, [])
  else if img.ndim ≠ 2 then (.error .dimErr, [])
  else if img.height * img.width = 0 then (.error .emptyErr, [])
  else if max_area < min_area then (.error .areaErr, [])
  else
    (.ok (drCore area m00 m10 m01 (img.height : ℤ) (img.width : ℤ)
        roi_size min_area max_area contours), drProcSteps)

/-- On a valid image with valid area bounds, `detect_dr_center` reaches the
processing core. -/
theorem detect_dr_center_valid {α : Type} (area m00 m10 m01 : α → ℚ)
    (img : NpImage) (roi_size min_area max_area : ℤ) (contours : List α)
    (hnd : img.isNdarray = true) (hdim : img.ndim = 2)
    (hsz : 0 < img.height * img.width) (harea : ¬ max_area < min_area) :
    detect_dr_center area m00 m10 m01 img roi_size min_area max_area
        contours =
      (.ok (drCore area m00 m10 m01 (img.height : ℤ) (img.width : ℤ)
          roi_size min_area max_area contours), drProcSteps) := by
  unfold detect_dr_center
  rw [hnd, hdim]
  rw [if_neg (by simp), if_neg (by simp),
    if_neg (Nat.pos_iff_ne_zero.mp hsz), if_neg harea]

/-- The `foldl` inside `pyMaxBy` returns an element of the seeded list. -/
theorem foldlMax_mem {α : Type} (f : α → ℚ) (xs : List α) (a : α) :
    xs.foldl (fun best c => if f best < f c then c else best) a ∈ a :: xs := by
  induction xs generalizing a with
  | nil => simp
  | cons y ys ih =>
    simp only [List.foldl_cons]
    have h := ih (if f a < f y then y else a)
    rcases List.mem_cons.mp h with h1 | h1
    · rw [h1]
      split
      · exact List.mem_cons_of_mem _ (List.mem_cons_self _ _)
      · exact List.mem_cons_self _ _
    · exact List.mem_cons_of_mem _ (List.mem_cons_of_mem _ h1)

/-- The `foldl` inside `pyMaxBy` attains the maximal key over the seeded
list. -/
theorem foldlMax_le {α : Type} (f : α → ℚ) (xs : List α) (a : α) :
    ∀ c ∈ a :: xs,
      f c ≤ f (xs.foldl (fun best c => if f best < f c then c else best) a) := by
  induction xs generalizing a with
  | nil =>
    intro c hc
    rw [List.mem_singleton.mp hc]
    simp
  | cons y ys ih =>
    intro c hc
    simp only [List.foldl_cons]
    have hseed : f a ≤ f (if f a < f y then y else a) ∧
        f y ≤ f (if f a < f y then y else a) := by
      split
      · exact ⟨le_of_lt ‹_›, le_refl _⟩
      · exact ⟨le_refl _, le_of_not_lt ‹_›⟩
    have hrec := ih (if f a < f y then y else a)
    have hs : f (if f a < f y then y else a) ≤
        f (ys.foldl (fun best c => if f best < f c then c else best)
            (if f a < f y then y else a)) :=
      hrec _ (List.mem_cons_self _ _)
    rcases List.mem_cons.mp hc with h1 | h1
    · rw [h1]
      exact le_trans hseed.1 hs
    · rcases List.mem_cons.mp h1 with h2 | h2
      · rw [h2]
        exact le_trans hseed.2 hs
      · exact hrec _ (List.mem_cons_of_mem _ h2)

/-- `pyMaxBy` returns a member of the list attaining the maximal key. -/
theorem pyMaxBy_spec {α : Type} (f : α → ℚ) (l : List α) (x : α)
    (hx : pyMaxBy f l = some x) : x ∈ l ∧ ∀ c ∈ l, f c ≤ f x := by
  cases l with
  | nil => simp [pyMaxBy] at hx
  | cons a xs =>
    simp only [pyMaxBy, Option.some.injEq] at hx
    rw [← hx]
    exact ⟨foldlMax_mem f xs a, foldlMax_le f xs a⟩

/-- `pyMaxBy` is `none` exactly on the empty list. -/
theorem pyMaxBy_eq_none {α : Type} (f : α → ℚ) (l : List α) :
    pyMaxBy f l = none ↔ l = [] := by
  cases l <;> simp [pyMaxBy]

/-- The clipped ROI is always symmetric around the image center: the
midpoint of `[roi_start, roi_end)` is `int(d / 2)`. -/
theorem roi_midpoint_is_center (d r : ℤ) :
    (roiStart d r + roiEnd d r) / 2 = d / 2 := by
  unfold roiStart roiEnd
  rw [max_def, min_def]
  split_ifs <;> omega

/-- **C2.** For every 2-D non-empty numpy image and any contour/moment
oracle outputs, if `max_area < min_area` then `detect_dr_center` fails with
the area validation `ValueError` and performs no processing operation at
all (the recorded processing trace is empty, independent of the image and
the oracles). -/
theorem dr_area_validation_before_processing {α : Type}
    (area m00 m10 m01 : α → ℚ) (img : NpImage)
    (roi_size min_area max_area : ℤ) (contours : List α)
    (hnd : img.isNdarray = true) (hdim : img.ndim = 2)
    (hsz : 0 < img.height * img.width)
    (harea : max_area < min_area) :
    detect_dr_center area m00 m10 m01 img roi_size min_area max_area
        contours = (.error .areaErr, []) := by
  unfold detect_dr_center
  rw [hnd, hdim]
  rw [if_neg (by simp), if_neg (by simp),
    if_neg (Nat.pos_iff_ne_zero.mp hsz), if_pos harea]

/-- Witness for C2 on a 4 × 4 image with bounds `min_area = 10`,
`max_area = 5` and one candidate contour. -/
theorem dr_area_validation_before_processing_witness :
    detect_dr_center (fun _ : Nat => (50 : ℚ)) (fun _ => 1) (fun _ => 1)
        (fun _ => 1) ⟨true, 2, 4, 4⟩ 200 10 5 [0] =
      (.error .areaErr, []) :=
  dr_area_validation_before_processing _ _ _ _ _ _ _ _ _ rfl rfl
    (by norm_num) (by norm_num)

/-- **C6.** On a valid non-empty image with valid bounds, when no extracted
contour has area strictly between the bounds (in particular on an all-zero,
marker-free image, where the only contour is the whole ROI and is filtered
out), `detect_dr_center` does not fail and returns the deterministic
fallback `(int(w / 2), int(h / 2))` — the image center the ROI is clipped
around, which equals the clipped-ROI midpoint in full-image coordinates. -/
theorem dr_marker_free_returns_roi_center {α : Type}
    (area m00 m10 m01 : α → ℚ) (img : NpImage)
    (roi_size min_area max_area : ℤ) (contours : List α)
    (hnd : img.isNdarray = true) (hdim : img.ndim = 2)
    (hsz : 0 < img.height * img.width)
    (harea : ¬ max_area < min_area)
    (hnone : ∀ c ∈ contours,
      ¬((min_area : ℚ) < area c ∧ area c < (max_area : ℚ))) :
    detect_dr_center area m00 m10 m01 img roi_size min_area max_area
        contours =
      (.ok ((img.width : ℤ) / 2, (img.height : ℤ) / 2), drProcSteps) ∧
    (roiStart (img.width : ℤ) roi_size + roiEnd (img.width : ℤ) roi_size) / 2
      = (img.width : ℤ) / 2 ∧
    (roiStart (img.height : ℤ) roi_size + roiEnd (img.height : ℤ) roi_size)
        / 2 = (img.height : ℤ) / 2 := by
  refine ⟨?_, roi_midpoint_is_center _ _, roi_midpoint_is_center _ _⟩
  rw [detect_dr_center_valid area m00 m10 m01 img roi_size min_area max_area
    contours hnd hdim hsz harea]
  have hfil : contours.filter
      (fun c => decide ((min_area : ℚ) < area c ∧ area c < (max_area : ℚ)))
      = [] := by
    rw [List.filter_eq_nil_iff]
    intro c hc
    simp only [decide_eq_true_eq]
    exact hnone c hc
  simp only [drCore]
  rw [hfil]
  simp [pyMaxBy]

/-- Witness for C6: a 400 × 600 image with no candidate contours at all
yields `(300, 200)` (the image center) without an error. -/
theorem dr_marker_free_returns_roi_center_witness :
    detect_dr_center (fun _ : Nat => (50 : ℚ)) (fun _ => 1) (fun _ => 1)
        (fun _ => 1) ⟨true, 2, 400, 600⟩ 200 10 500 [] =
      (.ok (300, 200), drProcSteps) := by
  have h := dr_marker_free_returns_roi_center (fun _ : Nat => (50 : ℚ))
    (fun _ => 1) (fun _ => 1) (fun _ => 1) ⟨true, 2, 400, 600⟩ 200 10 500 []
    rfl rfl (by norm_num) (by norm_num)
    (fun c hc => absurd hc (List.not_mem_nil c))
  rw [h.1]
  norm_num

/-- **C7.** On a valid image with valid bounds: the kept contours are
exactly those with `min_area < area < max_area` (areas equal to either
bound excluded); when some survive, the selected contour is a survivor of
maximal area and the result is its moment centroid
`(m10/m00, m01/m00)` truncated to `int` and translated by the ROI origin
whenever `m00 > 1e-10`, and the fallback (image center) otherwise; when
none survive the fallback is returned. -/
theorem dr_contour_filter_selection_centroid {α : Type}
    (area m00 m10 m01 : α → ℚ) (img : NpImage)
    (roi_size min_area max_area : ℤ) (contours : List α)
    (hnd : img.isNdarray = true) (hdim : img.ndim = 2)
    (hsz : 0 < img.height * img.width) (harea : ¬ max_area < min_area) :
    (∀ c, c ∈ contours.filter
          (fun c => decide ((min_area : ℚ) < area c ∧ area c < (max_area : ℚ)))
        ↔ c ∈ contours ∧ (min_area : ℚ) < area c ∧ area c < (max_area : ℚ)) ∧
    (contours.filter
        (fun c => decide ((min_area : ℚ) < area c ∧ area c < (max_area : ℚ)))
        = [] →
      detect_dr_center area m00 m10 m01 img roi_size min_area max_area
          contours =
        (.ok ((img.width : ℤ) / 2, (img.height : ℤ) / 2), drProcSteps)) ∧
    (∀ largest, pyMaxBy area (contours.filter
        (fun c => decide ((min_area : ℚ) < area c ∧ area c < (max_area : ℚ))))
        = some largest →
      (largest ∈ contours.filter
          (fun c => decide ((min_area : ℚ) < area c ∧ area c < (max_area : ℚ)))
        ∧ ∀ c ∈ contours.filter
            (fun c => decide ((min_area : ℚ) < area c ∧ area c < (max_area : ℚ))),
          area c ≤ area largest) ∧
      detect_dr_center area m00 m10 m01 img roi_size min_area max_area
          contours =
        (.ok (if DR_MOMENT_THRESHOLD < m00 largest then
            (roiStart (img.width : ℤ) roi_size +
               pyTrunc (m10 largest / m00 largest),
             roiStart (img.height : ℤ) roi_size +
               pyTrunc (m01 largest / m00 largest))
          else ((img.width : ℤ) / 2, (img.height : ℤ) / 2)),
         drProcSteps)) := by
  refine ⟨?_, ?_, ?_⟩
  · intro c
    rw [List.mem_filter]
    simp only [decide_eq_true_eq]
  · intro hfil
    rw [detect_dr_center_valid area m00 m10 m01 img roi_size min_area
      max_area contours hnd hdim hsz harea]
    simp only [drCore]
    rw [hfil]
    simp [pyMaxBy]
  · intro largest hsel
    refine ⟨pyMaxBy_spec area _ largest hsel, ?_⟩
    rw [detect_dr_center_valid area m00 m10 m01 img roi_size min_area
      max_area contours hnd hdim hsz harea]
    simp only [drCore]
    rw [hsel]
    dsimp only
    have hx : roiStart (img.width : ℤ) roi_size + (img.width : ℤ) / 2 -
        roiStart (img.width : ℤ) roi_size = (img.width : ℤ) / 2 := by omega
    have hy : roiStart (img.height : ℤ) roi_size + (img.height : ℤ) / 2 -
        roiStart (img.height : ℤ) roi_size = (img.height : ℤ) / 2 := by omega
    rw [hx, hy]

/-- Witness for C7: two surviving contours with areas 100 and 200 on a
400 × 400 image; the larger one (area 200, moments
`m00 = 4, m10 = 10, m01 = 6`) is selected and its truncated centroid
`(int(10/4), int(6/4)) = (2, 1)` is returned (ROI origin `(0, 0)`). -/
theorem dr_contour_filter_selection_centroid_witness :
    detect_dr_center (fun n : Nat => if n = 1 then (100 : ℚ) else 200)
        (fun _ => 4) (fun _ => 10) (fun _ => 6)
        ⟨true, 2, 400, 400⟩ 200 10 500 [1, 2] =
      (.ok (2, 1), drProcSteps) := by
  have hsel : pyMaxBy (fun n : Nat => if n = 1 then (100 : ℚ) else 200)
      ([1, 2].filter (fun c => decide ((10 : ℤ) <
        (fun n : Nat => if n = 1 then (100 : ℚ) else 200) c ∧
        (fun n : Nat => if n = 1 then (100 : ℚ) else 200) c < ((500 : ℤ) : ℚ))))
      = some 2 := by
    norm_num [pyMaxBy, List.filter]
  have h := dr_contour_filter_selection_centroid
    (fun n : Nat => if n = 1 then (100 : ℚ) else 200)
    (fun _ => 4) (fun _ => 10) (fun _ => 6)
    ⟨true, 2, 400, 400⟩ 200 10 500 [1, 2]
    rfl rfl (by norm_num) (by norm_num)
  rw [(h.2.2 2 hsel).2]
  norm_num [roiStart, pyTrunc, DR_MOMENT_THRESHOLD]

/-! ## VideoStreamService (`src/services/video_stream_service.py`)

The mutable service object is explicit state passing. Frames are their
flattened pixel samples; `frame.copy()` is value semantics here, so copies
need no separate modelling. Thread interleavings are serialised into an
event list (every field access in the source is lock-protected). -/

/-- A video frame: its pixel samples, flattened. -/
abbrev Frame := List Nat

/-- `int(np.sum(frame))`: the brightness of a frame. -/
def frameSum (f : Frame) : Nat := f.foldl (· + ·) 0

/-- The mutable fields of `VideoStreamService` (lines 52-63). -/
structure VSState where
  cameraOnline : Bool
  currentFrame : Option Frame
  currentBrightness : Nat
  calcEnabled : Bool
  maxBrightness : Nat
  brightestFrame : Option Frame
  deriving DecidableEq

/-- `__init__`: offline, no frame, zero brightness, calculation disabled,
empty brightness record. -/
def initState : VSState :=
  { cameraOnline := false, currentFrame := none, currentBrightness := 0,
    calcEnabled := false, maxBrightness := 0, brightestFrame := none }

/-- `_process_brightness_analysis` (lines 131-155): store the current
brightness; if it strictly exceeds the recorded maximum, replace the
maximum and keep a copy of the frame. -/
def processBrightness (s : VSState) (f : Frame) : VSState :=
  let b := frameSum f
  let s' := { s with currentBrightness := b }
  if s'.maxBrightness < b then
    { s' with maxBrightness := b, brightestFrame := some f }
  else s'

/-- Operations that mutate the service state: a successful frame read
(one `run`-loop iteration, lines 83-101), a failed read (lines 102-108),
and the public mutators. -/
inductive VSEvent where
  | frameArrival (f : Frame)
  | readFail
  | resetCalc
  | enableCalc
  | disableCalc
  deriving DecidableEq

/-- One state transition per event, from the source: a successful read
marks the camera online, stores a copy as the current frame and, only if
calculation is enabled, runs the brightness analysis; a failed read marks
the camera offline; `reset_calculation` (lines 176-183) clears the
maximum and the brightest frame; enable/disable toggle the flag. -/
def step (s : VSState) : VSEvent → VSState
  | .frameArrival f =>
    let s1 := { s with cameraOnline := true, currentFrame := some f }
    if s1.calcEnabled then processBrightness s1 f else s1
  | .readFail => { s with cameraOnline := false }
  | .resetCalc => { s with maxBrightness := 0, brightestFrame := none }
  | .enableCalc => { s with calcEnabled := true }
  | .disableCalc => { s with calcEnabled := false }

/-- `get_max_brightness` (lines 205-212). -/
def get_max_brightness (s : VSState) : Nat := s.maxBrightness

/-- `get_brightest_frame` (lines 214-223); the returned copy is the stored
value. -/
def get_brightest_frame (s : VSState) : Option Frame := s.brightestFrame

/-- `get_current_brightness` (lines 196-203). -/
def get_current_brightness (s : VSState) : Nat := s.currentBrightness

/-- `get_current_frame` (lines 185-194). -/
def get_current_frame (s : VSState) : Option Frame := s.currentFrame

/-- `is_camera_online` (lines 225-232). -/
def is_camera_online (s : VSState) : Bool := s.cameraOnline

/-- `is_calculation_enabled` (lines 167-174). -/
def is_calculation_enabled (s : VSState) : Bool := s.calcEnabled

/-- State reached from `__init__` after a sequence of events. -/
def runEvents (evs : List VSEvent) : VSState := evs.foldl step initState

/-- Processing a run of frame arrivals. -/
def runFrames (s : VSState) (fs : List Frame) : VSState :=
  fs.foldl (fun t f => step t (.frameArrival f)) s

/-- A frame arrival with calculation enabled: the flag stays set, current
brightness becomes the frame's sum, the maximum becomes the max of old and
new, and the brightest frame is replaced exactly on a strict increase. -/
theorem step_frame_enabled (s : VSState) (f : Frame)
    (hc : s.calcEnabled = true) :
    (step s (.frameArrival f)).calcEnabled = true ∧
    (step s (.frameArrival f)).currentBrightness = frameSum f ∧
    (step s (.frameArrival f)).maxBrightness
      = max s.maxBrightness (frameSum f) ∧
    ((s.maxBrightness < frameSum f ∧
        (step s (.frameArrival f)).brightestFrame = some f) ∨
      (¬ s.maxBrightness < frameSum f ∧
        (step s (.frameArrival f)).brightestFrame = s.brightestFrame ∧
        (step s (.frameArrival f)).maxBrightness = s.maxBrightness)) := by
  simp only [step, hc, if_true, processBrightness]
  by_cases hb : s.maxBrightness < frameSum f
  · rw [if_pos hb]
    refine ⟨rfl, rfl, ?_, Or.inl ⟨hb, rfl⟩⟩
    exact (max_eq_right (le_of_lt hb)).symm
  · rw [if_neg hb]
    refine ⟨rfl, rfl, ?_, Or.inr ⟨hb, rfl, rfl⟩⟩
    exact (max_eq_left (not_lt.mp hb)).symm

/-- Running a list of frames with calculation enabled: the final maximum
folds `max` over the frame sums, and the brightest record is either
untouched (maximum unchanged) or a processed frame attaining the final
maximum. -/
theorem runFrames_spec (fs : List Frame) : ∀ s : VSState,
    s.calcEnabled = true →
    (runFrames s fs).calcEnabled = true ∧
    (runFrames s fs).maxBrightness
      = fs.foldl (fun m f => max m (frameSum f)) s.maxBrightness ∧
    ((runFrames s fs).brightestFrame = s.brightestFrame ∧
        (runFrames s fs).maxBrightness = s.maxBrightness ∨
      ∃ f ∈ fs, frameSum f = (runFrames s fs).maxBrightness ∧
        (runFrames s fs).brightestFrame = some f) := by
  induction fs with
  | nil => exact fun s hc => ⟨hc, rfl, Or.inl ⟨rfl, rfl⟩⟩
  | cons g gs ih =>
    intro s hc
    obtain ⟨e1, _, e3, e4⟩ := step_frame_enabled s g hc
    have hrun : runFrames s (g :: gs) = runFrames (step s (.frameArrival g)) gs :=
      rfl
    obtain ⟨ih1, ih2, ih3⟩ := ih (step s (.frameArrival g)) e1
    have hfold : gs.foldl (fun m f => max m (frameSum f))
          (step s (.frameArrival g)).maxBrightness
        = (g :: gs).foldl (fun m f => max m (frameSum f)) s.maxBrightness := by
      rw [List.foldl_cons, e3]
    refine ⟨by rw [hrun]; exact ih1, by rw [hrun, ih2, hfold], ?_⟩
    rw [hrun]
    rcases ih3 with ⟨hbf, hmb⟩ | ⟨f, hf, hsum, hbf⟩
    · rcases e4 with ⟨hlt, hsome⟩ | ⟨hnlt, hkeep, hmax⟩
      · refine Or.inr ⟨g, List.mem_cons_self _ _, ?_, by rw [hbf, hsome]⟩
        rw [hmb, e3, max_eq_right (le_of_lt hlt)]
      · exact Or.inl ⟨by rw [hbf, hkeep], by rw [hmb, hmax]⟩
    · exact Or.inr ⟨f, List.mem_cons_of_mem _ hf, hsum, hbf⟩

/-- **C3 counterexample.** Enable calculation and feed the single all-zero
frame `[0]`: its brightness is `0`, the recorded maximum is `0` — which is
the maximum per-frame brightness over this (non-empty) sequence — yet
`get_brightest_frame` returns `none`, not a copy of a frame attaining that
maximum. -/
theorem brightness_tracking_zero_frame_counterexample :
    frameSum ([0] : Frame) = 0 ∧
    ([([0] : Frame)].foldl (fun m f => max m (frameSum f)) 0) = 0 ∧
    get_max_brightness
      (runEvents [.enableCalc, .frameArrival ([0] : Frame)]) = 0 ∧
    get_brightest_frame
      (runEvents [.enableCalc, .frameArrival ([0] : Frame)]) = none :=
  ⟨rfl, rfl, rfl, rfl⟩

/-- **C3 (amended).** With calculation enabled, after processing a finite
frame sequence `fs`, `get_max_brightness` is the fold of `max` over the
frame brightnesses (their maximum, `0` for the empty sequence); whenever
that maximum is strictly positive, `get_brightest_frame` is a copy of a
processed frame attaining it (for an all-zero sequence it stays `none`);
a subsequent `reset_calculation` makes `get_max_brightness` return `0` and
`get_brightest_frame` return `none`. -/
theorem brightness_tracking_over_sequence (fs : List Frame) :
    get_max_brightness (runEvents (.enableCalc :: fs.map .frameArrival))
      = fs.foldl (fun m f => max m (frameSum f)) 0 ∧
    (0 < get_max_brightness
        (runEvents (.enableCalc :: fs.map .frameArrival)) →
      ∃ f ∈ fs, frameSum f
          = get_max_brightness
              (runEvents (.enableCalc :: fs.map .frameArrival)) ∧
        get_brightest_frame
            (runEvents (.enableCalc :: fs.map .frameArrival)) = some f) ∧
    get_max_brightness
      (step (runEvents (.enableCalc :: fs.map .frameArrival)) .resetCalc)
      = 0 ∧
    get_brightest_frame
      (step (runEvents (.enableCalc :: fs.map .frameArrival)) .resetCalc)
      = none := by
  have hrw : runEvents (.enableCalc :: fs.map .frameArrival)
      = runFrames (step initState .enableCalc) fs := by
    rw [runEvents, List.foldl_cons, runFrames, List.foldl_map]
  obtain ⟨_, h2, h3⟩ := runFrames_spec fs (step initState .enableCalc) rfl
  refine ⟨?_, ?_, rfl, rfl⟩
  · rw [get_max_brightness, hrw, h2]
    rfl
  · intro hpos
    rw [get_max_brightness, hrw] at hpos
    rw [get_max_brightness, get_brightest_frame, hrw]
    rcases h3 with ⟨_, hmb⟩ | ⟨f, hf, hsum, hbf⟩
    · rw [hmb] at hpos
      exact absurd hpos (by decide)
    · exact ⟨f, hf, hsum, hbf⟩

/-- Witness for C3 (amended) on the two-frame sequence `[[5], [2]]`: the
maximum is `5`, attained by the frame `[5]`, which is the stored brightest
frame; after a reset both are cleared. -/
theorem brightness_tracking_over_sequence_witness :
    get_max_brightness (runEvents
        (.enableCalc :: ([[5], [2]] : List Frame).map .frameArrival)) = 5 ∧
    get_brightest_frame (runEvents
        (.enableCalc :: ([[5], [2]] : List Frame).map .frameArrival))
      = some ([5] : Frame) ∧
    get_max_brightness (step (runEvents
        (.enableCalc :: ([[5], [2]] : List Frame).map .frameArrival))
        .resetCalc) = 0 ∧
    get_brightest_frame (step (runEvents
        (.enableCalc :: ([[5], [2]] : List Frame).map .frameArrival))
        .resetCalc) = none := by
  obtain ⟨h1, h2, h3, h4⟩ :=
    brightness_tracking_over_sequence ([[5], [2]] : List Frame)
  have hmax : get_max_brightness (runEvents
      (.enableCalc :: ([[5], [2]] : List Frame).map .frameArrival)) = 5 := by
    rw [h1]
    rfl
  have hpos : 0 < get_max_brightness (runEvents
      (.enableCalc :: ([[5], [2]] : List Frame).map .frameArrival)) := by
    rw [hmax]
    norm_num
  obtain ⟨f, hf, hsum, hbf⟩ := h2 hpos
  have hfeq : f = ([5] : Frame) := by
    rw [hmax] at hsum
    rcases List.mem_cons.mp hf with h5 | h5
    · exact h5
    · rcases List.mem_cons.mp h5 with h6 | h6
      · rw [h6] at hsum
        exact absurd hsum (by decide)
      · exact absurd h6 (List.not_mem_nil f)
  rw [hfeq] at hbf
  exact ⟨hmax, hbf, h3, h4⟩

/-! ## C4: the brightness-record invariant

`stepCount` pairs the service state with a history observer: the number of
frames processed while calculation was enabled since the last reset. The
observer is a function of the event history only; it adds no state to the
embedded service. -/

/-- Service step paired with the count of frames processed while enabled
since the last reset. -/
def stepCount (p : VSState × Nat) (e : VSEvent) : VSState × Nat :=
  (step p.1 e,
   match e with
   | .frameArrival _ => if p.1.calcEnabled then p.2 + 1 else p.2
   | .resetCalc => 0
   | _ => p.2)

/-- Run from `__init__` with the processed-frame count alongside. -/
def runEventsCount (evs : List VSEvent) : VSState × Nat :=
  evs.foldl stepCount (initState, 0)

/-- The paired fold computes the same service state. -/
theorem runEventsCount_fst (evs : List VSEvent) :
    ∀ (s : VSState) (n : Nat),
      (evs.foldl stepCount (s, n)).1 = evs.foldl step s := by
  induction evs with
  | nil => intro s n; rfl
  | cons e rest ih =>
    intro s n
    rw [List.foldl_cons, List.foldl_cons]
    exact ih (step s e) _

/-- The invariant carried through the induction: the brightest frame is
recorded iff the maximum is positive, and a positive maximum implies a
processed frame since the last reset. -/
def BrightInv (p : VSState × Nat) : Prop :=
  (p.1.brightestFrame ≠ none ↔ 0 < p.1.maxBrightness) ∧
  (0 < p.1.maxBrightness → 0 < p.2)

/-- Every event preserves `BrightInv`. -/
theorem stepCount_preserves (p : VSState × Nat) (e : VSEvent)
    (h : BrightInv p) : BrightInv (stepCount p e) := by
  obtain ⟨h1, h2⟩ := h
  cases e with
  | frameArrival f =>
    by_cases hc : p.1.calcEnabled
    · by_cases hb : p.1.maxBrightness < frameSum f
      · refine ⟨?_, ?_⟩
        · simp only [stepCount, step, processBrightness, hc, if_true, hb,
            BrightInv]
          simp
          omega
        · simp only [stepCount, step, processBrightness, hc, if_true, hb]
          intro _
          exact Nat.succ_pos _
      · refine ⟨?_, ?_⟩
        · simp only [stepCount, step, processBrightness, hc, if_true, hb,
            if_false]
          simpa using h1
        · simp only [stepCount, step, processBrightness, hc, if_true, hb,
            if_false]
          intro hx
          exact Nat.lt_of_lt_of_le (h2 hx) (Nat.le_succ _)
    · have hc' : p.1.calcEnabled = false := by
        simpa using hc
      refine ⟨?_, ?_⟩
      · simp only [stepCount, step, hc', Bool.false_eq_true, if_false]
        simpa using h1
      · simp only [stepCount, step, hc', Bool.false_eq_true, if_false]
        exact h2
  | readFail => exact ⟨by simpa [stepCount, step] using h1,
      by simpa [stepCount, step] using h2⟩
  | resetCalc => exact ⟨by simp [stepCount, step], by simp [stepCount, step]⟩
  | enableCalc => exact ⟨by simpa [stepCount, step] using h1,
      by simpa [stepCount, step] using h2⟩
  | disableCalc => exact ⟨by simpa [stepCount, step] using h1,
      by simpa [stepCount, step] using h2⟩

/-- `BrightInv` holds along any fold. -/
theorem foldl_stepCount_inv (evs : List VSEvent) :
    ∀ p : VSState × Nat, BrightInv p → BrightInv (evs.foldl stepCount p) := by
  induction evs with
  | nil => exact fun p hp => hp
  | cons e rest ih =>
    intro p hp
    rw [List.foldl_cons]
    exact ih _ (stepCount_preserves p e hp)

/-- **C4.** In every state reachable from construction by any event
sequence, the brightest-frame record is non-empty iff the recorded maximum
brightness is strictly positive and at least one frame was processed while
calculation was enabled since the last reset; the paired fold's first
component is exactly the service state, so every operation preserves the
invariant. -/
theorem brightest_frame_invariant (evs : List VSEvent) :
    (runEventsCount evs).1 = runEvents evs ∧
    ((runEventsCount evs).1.brightestFrame ≠ none ↔
      0 < (runEventsCount evs).1.maxBrightness ∧
        0 < (runEventsCount evs).2) := by
  have hinv : BrightInv (runEventsCount evs) :=
    foldl_stepCount_inv evs (initState, 0) ⟨by decide, by decide⟩
  obtain ⟨h1, h2⟩ := hinv
  refine ⟨runEventsCount_fst evs initState 0, ?_, ?_⟩
  · intro hne
    have hm := h1.mp hne
    exact ⟨hm, h2 hm⟩
  · intro hm
    exact h1.mpr hm.1

/-! ## C10: frame effect of `reset_calculation` -/

/-- History observer: the last frame processed while calculation was
enabled, tracked along the event list (accumulator `acc`, current value of
the enabled flag `b`). -/
def lepAux (b : Bool) (acc : Option Frame) : List VSEvent → Option Frame
  | [] => acc
  | .frameArrival f :: rest => lepAux b (if b then some f else acc) rest
  | .enableCalc :: rest => lepAux true acc rest
  | .disableCalc :: rest => lepAux false acc rest
  | .readFail :: rest => lepAux b acc rest
  | .resetCalc :: rest => lepAux b acc rest

/-- The last frame processed while calculation was enabled, from
construction. -/
def lastEnabledProcessed (evs : List VSEvent) : Option Frame :=
  lepAux false none evs

/-- The accumulator only survives when no later frame is processed. -/
theorem lepAux_acc (evs : List VSEvent) :
    ∀ (b : Bool) (acc : Option Frame),
      lepAux b acc evs =
        match lepAux b none evs with
        | some f => some f
        | none => acc := by
  induction evs with
  | nil => intro b acc; rfl
  | cons e rest ih =>
    intro b acc
    cases e with
    | frameArrival f =>
      cases b with
      | false =>
        simp only [lepAux, Bool.false_eq_true, if_false]
        exact ih false acc
      | true =>
        simp only [lepAux, if_true]
        rw [ih true (some f)]
        cases lepAux true none rest <;> rfl
    | enableCalc =>
      simp only [lepAux]
      exact ih true acc
    | disableCalc =>
      simp only [lepAux]
      exact ih false acc
    | readFail =>
      simp only [lepAux]
      exact ih b acc
    | resetCalc =>
      simp only [lepAux]
      exact ih b acc

/-- The current brightness equals the sum of the last frame processed while
enabled; if no frame was processed while enabled, it is untouched. -/
theorem lep_currentBrightness (evs : List VSEvent) :
    ∀ s : VSState,
      (∀ f, lepAux s.calcEnabled none evs = some f →
        (evs.foldl step s).currentBrightness = frameSum f) ∧
      (lepAux s.calcEnabled none evs = none →
        (evs.foldl step s).currentBrightness = s.currentBrightness) := by
  induction evs with
  | nil =>
    intro s
    exact ⟨fun f h => absurd h (by simp [lepAux]), fun _ => rfl⟩
  | cons e rest ih =>
    intro s
    cases e with
    | frameArrival f =>
      cases hc : s.calcEnabled with
      | false =>
        have hs1c : (step s (.frameArrival f)).calcEnabled = false := by
          simp [step, hc]
        have hs1b : (step s (.frameArrival f)).currentBrightness
            = s.currentBrightness := by
          simp [step, hc]
        have hrec := ih (step s (.frameArrival f))
        rw [hs1c] at hrec
        constructor
        · intro g hg
          simp only [lepAux, Bool.false_eq_true, if_false] at hg
          rw [List.foldl_cons]
          exact hrec.1 g hg
        · intro hg
          simp only [lepAux, Bool.false_eq_true, if_false] at hg
          rw [List.foldl_cons, hrec.2 hg, hs1b]
      | true =>
        have hs1c : (step s (.frameArrival f)).calcEnabled = true := by
          simp [step, processBrightness, hc]
          split <;> rfl
        have hs1b : (step s (.frameArrival f)).currentBrightness
            = frameSum f := by
          simp [step, processBrightness, hc]
          split <;> rfl
        have hrec := ih (step s (.frameArrival f))
        rw [hs1c] at hrec
        constructor
        · intro g hg
          simp only [lepAux, if_true] at hg
          rw [lepAux_acc rest true (some f)] at hg
          rw [List.foldl_cons]
          cases hrest : lepAux true none rest with
          | some g' =>
            rw [hrest] at hg
            simp only [Option.some.injEq] at hg
            rw [← hg]
            exact hrec.1 g' hrest
          | none =>
            rw [hrest] at hg
            simp only [Option.some.injEq] at hg
            rw [← hg, hrec.2 hrest, hs1b]
        · intro hg
          simp only [lepAux, if_true] at hg
          rw [lepAux_acc rest true (some f)] at hg
          cases hrest : lepAux true none rest with
          | some g' => rw [hrest] at hg; exact absurd hg (by simp)
          | none => rw [hrest] at hg; exact absurd hg (by simp)
    | enableCalc =>
      have hs1 : step s .enableCalc = { s with calcEnabled := true } := rfl
      have hrec := ih (step s .enableCalc)
      rw [hs1] at hrec
      simp only at hrec
      constructor
      · intro g hg
        simp only [lepAux] at hg
        rw [List.foldl_cons, hs1]
        exact hrec.1 g hg
      · intro hg
        simp only [lepAux] at hg
        rw [List.foldl_cons, hs1]
        exact hrec.2 hg
    | disableCalc =>
      have hs1 : step s .disableCalc = { s with calcEnabled := false } := rfl
      have hrec := ih (step s .disableCalc)
      rw [hs1] at hrec
      simp only at hrec
      constructor
      · intro g hg
        simp only [lepAux] at hg
        rw [List.foldl_cons, hs1]
        exact hrec.1 g hg
      · intro hg
        simp only [lepAux] at hg
        rw [List.foldl_cons, hs1]
        exact hrec.2 hg
    | readFail =>
      have hs1 : step s .readFail = { s with cameraOnline := false } := rfl
      have hrec := ih (step s .readFail)
      rw [hs1] at hrec
      simp only at hrec
      constructor
      · intro g hg
        simp only [lepAux] at hg
        rw [List.foldl_cons, hs1]
        exact hrec.1 g hg
      · intro hg
        simp only [lepAux] at hg
        rw [List.foldl_cons, hs1]
        exact hrec.2 hg
    | resetCalc =>
      have hs1 : step s .resetCalc
          = { s with maxBrightness := 0, brightestFrame := none } := rfl
      have hrec := ih (step s .resetCalc)
      rw [hs1] at hrec
      simp only at hrec
      constructor
      · intro g hg
        simp only [lepAux] at hg
        rw [List.foldl_cons, hs1]
        exact hrec.1 g hg
      · intro hg
        simp only [lepAux] at hg
        rw [List.foldl_cons, hs1]
        exact hrec.2 hg

/-- **C10.** `reset_calculation` sets the max brightness to `0` and the
brightest frame to `none` and leaves every other field unchanged — the
current frame, the current brightness, the online flag and the
calculation-enabled flag; in particular, after any event history followed
by a reset, `get_current_brightness` still returns the brightness computed
for the last frame processed while calculation was enabled. -/
theorem reset_calculation_frame_effect (s : VSState) (evs : List VSEvent)
    (f : Frame) :
    get_max_brightness (step s .resetCalc) = 0 ∧
    get_brightest_frame (step s .resetCalc) = none ∧
    get_current_frame (step s .resetCalc) = get_current_frame s ∧
    get_current_brightness (step s .resetCalc) = get_current_brightness s ∧
    is_camera_online (step s .resetCalc) = is_camera_online s ∧
    is_calculation_enabled (step s .resetCalc)
      = is_calculation_enabled s ∧
    (lastEnabledProcessed evs = some f →
      get_current_brightness (runEvents (evs ++ [.resetCalc]))
        = frameSum f) := by
  refine ⟨rfl, rfl, rfl, rfl, rfl, rfl, ?_⟩
  intro hlep
  have happ : runEvents (evs ++ [.resetCalc])
      = step (runEvents evs) .resetCalc := by
    rw [runEvents, runEvents, List.foldl_append]
    rfl
  rw [happ]
  have hcb : get_current_brightness (step (runEvents evs) .resetCalc)
      = (runEvents evs).currentBrightness := rfl
  rw [hcb]
  exact (lep_currentBrightness evs initState).1 f hlep

/-- Witness for C10: enable, process the frame `[2, 3]` (brightness `5`),
then reset; the current brightness still reads `5`. -/
theorem reset_calculation_frame_effect_witness :
    get_current_brightness (runEvents
        ([.enableCalc, .frameArrival ([2, 3] : Frame)] ++ [.resetCalc]))
      = frameSum ([2, 3] : Frame) :=
  (reset_calculation_frame_effect initState
      [.enableCalc, .frameArrival ([2, 3] : Frame)]
      ([2, 3] : Frame)).2.2.2.2.2.2 rfl

/-! ## C9: the worker loop and resource release (`run`, lines 65-120)

The capture device is external: an open outcome and a finite trace of read
outcomes (the trace ends where the stop flag is observed). The
`try`/`except`/`finally` structure of `run` is encoded by explicit
sequencing: the `except` clause absorbs a loop exception, the `finally`
clause releases the capture whenever the constructor returned (`cap` is not
`None` even when `isOpened()` is false), and the inner `try` around
`release()` absorbs a release failure. -/

/-- Outcome of `cv2.VideoCapture(source)` plus `isOpened()`:
the constructor raised (`cap` stays `None`), it returned an unopened
capture, or it returned an opened capture. -/
inductive OpenOutcome where
  | ctorRaised
  | notOpened
  | opened
  deriving DecidableEq

/-- Outcome of one `cap.read()` call: a frame, a failed read
(`ret` false / `frame` `None`), or an exception. -/
inductive ReadOutcome where
  | okFrame (f : Frame)
  | failRead
  | raisedRead
  deriving DecidableEq

/-- The capture loop (lines 80-108): consume read outcomes until the stop
flag is observed (end of the trace) or a read raises; returns the final
service state and whether an exception escaped the loop. -/
def loopReads : VSState → List ReadOutcome → VSState × Bool
  | s, [] => (s, false)
  | s, .okFrame f :: rest => loopReads (step s (.frameArrival f)) rest
  | s, .failRead :: rest => loopReads (step s .readFail) rest
  | s, .raisedRead :: _ => (s, true)

/-- `run` (lines 65-120): returns the final service state, the number of
`cap.release()` calls performed, and whether an exception escaped `run`.
`releaseRaises` records whether `release()` itself fails; the inner
`try`/`except` of the `finally` block absorbs it either way, so it cannot
influence the result. -/
def runWorker (op : OpenOutcome) (releaseRaises : Bool)
    (reads : List ReadOutcome) (s : VSState) : VSState × Nat × Bool :=
  match op, releaseRaises with
  | .ctorRaised, _ => (s, 0, false)
  | .notOpened, _ => (s, 1, false)
  | .opened, _ => ((loopReads s reads).1, 1, false)

/-- **C9.** For every open outcome, read trace (including traces ending in
a read exception), release behaviour and start state: whenever the capture
constructor returned (in particular whenever the source was successfully
opened), `run` releases it exactly once — on cooperative stop, and on an
exception escaping the read loop alike; no exception ever escapes `run`
(release failures included); and on the opened path the final state is the
loop's. -/
theorem run_releases_capture_once (op : OpenOutcome) (releaseRaises : Bool)
    (reads : List ReadOutcome) (s : VSState) :
    (runWorker op releaseRaises reads s).2.1
      = (if op = .ctorRaised then 0 else 1) ∧
    (runWorker op releaseRaises reads s).2.2 = false ∧
    (runWorker .opened releaseRaises reads s).1 = (loopReads s reads).1 := by
  cases op <;> exact ⟨rfl, rfl, rfl⟩

/-- Witness for C9 on an opened capture whose trace processes one frame
and then raises: exactly one release, no escaping exception. -/
theorem run_releases_capture_once_witness :
    (runWorker .opened true [.okFrame ([5] : Frame), .raisedRead]
        initState).2.1
      = (if OpenOutcome.opened = OpenOutcome.ctorRaised then 0 else 1) ∧
    (runWorker .opened true [.okFrame ([5] : Frame), .raisedRead]
        initState).2.2 = false ∧
    (runWorker .opened true [.okFrame ([5] : Frame), .raisedRead]
        initState).1
      = (loopReads initState [.okFrame ([5] : Frame), .raisedRead]).1 :=
  run_releases_capture_once .opened true
    [.okFrame ([5] : Frame), .raisedRead] initState

/-- Witness for C4 after enabling and processing the frame `[7]`. -/
theorem brightest_frame_invariant_witness :
    (runEventsCount [.enableCalc, .frameArrival ([7] : Frame)]).1
      = runEvents [.enableCalc, .frameArrival ([7] : Frame)] ∧
    ((runEventsCount
          [.enableCalc, .frameArrival ([7] : Frame)]).1.brightestFrame
        ≠ none ↔
      0 < (runEventsCount
            [.enableCalc, .frameArrival ([7] : Frame)]).1.maxBrightness ∧
        0 < (runEventsCount [.enableCalc, .frameArrival ([7] : Frame)]).2) :=
  brightest_frame_invariant [.enableCalc, .frameArrival ([7] : Frame)]

end Starshot
